import Mathlib

/-!
Verification development for the structural indexing subsystem of a Java
code RAG pipeline: a hierarchy scanner, a context-aware structural parser,
a content-addressed identity function, and a two-pass ingestion
orchestrator.  The Python source is shallowly embedded: pure functions
become Lean functions over `List Char` / `Nat`, the tree-sitter syntax
tree becomes an inductive `Node`, dictionaries become association lists,
and the orchestrator's loop becomes a fold over an explicit state.
-/

set_option maxRecDepth 4000

/-! ## Character-list string utilities

Python string operations (`strip`, `split`, `in`, `endswith`, `replace`,
`join`) reimplemented over `List Char` so that everything evaluates in the
kernel. -/

namespace PyStr

/-- The ASCII characters Python's `str.strip()` removes (exotic Unicode
whitespace, which the sources never contain, is not modelled). -/
def isPySpace (c : Char) : Bool :=
  c = ' ' || c = '\t' || c = '\n' || c = '\r' || c = '\x0b' || c = '\x0c'

def dropLeading (l : List Char) : List Char := l.dropWhile isPySpace

/-- Python `str.strip()` on a character list. -/
def stripL (l : List Char) : List Char :=
  (dropLeading ((dropLeading l.reverse).reverse))

/-- Python `str.strip()`. -/
def strip (s : String) : String := ⟨stripL s.data⟩

/-- Python `s.split(sep)` for a one-character separator. -/
def splitCharL (sep : Char) : List Char → List (List Char)
  | [] => [[]]
  | c :: rest =>
      let r := splitCharL sep rest
      if c = sep then [] :: r
      else match r with
        | [] => [[c]]
        | h :: t => (c :: h) :: t

def splitChar (sep : Char) (s : String) : List String :=
  (splitCharL sep s.data).map (fun l => ⟨l⟩)

/-- Python `str.split()` with no argument: split on (ASCII) whitespace
runs, dropping empty pieces. -/
def splitWsL (l : List Char) : List (List Char) :=
  ((splitCharL ' ' (l.map (fun c => if isPySpace c then ' ' else c))).filter
    (fun p => ¬ p.isEmpty))

/-- Python `"sep".join(parts)`. -/
def joinSep (sep : String) (parts : List String) : String :=
  match parts with
  | [] => ""
  | h :: t => t.foldl (fun acc p => acc ++ sep ++ p) h

/-- Python `s.startswith(p)`. -/
def startsWith (s p : String) : Bool := List.isPrefixOf p.data s.data

/-- Python `s.endswith(p)`. -/
def endsWith (s p : String) : Bool := List.isPrefixOf p.data.reverse s.data.reverse

def isInfixL [BEq α] (needle : List α) : List α → Bool
  | [] => List.isPrefixOf needle []
  | c :: rest => List.isPrefixOf needle (c :: rest) || isInfixL needle rest

/-- Python `needle in hay` for strings. -/
def strContains (hay needle : String) : Bool := isInfixL needle.data hay.data

/-- Python `s.replace(old, new)` on lists, with explicit fuel so the
definition stays structural; each step consumes at least one element, so
fuel = list length gives the unbounded behaviour. -/
def replaceLF [BEq α] (pat rep : List α) : Nat → List α → List α
  | _, [] => []
  | 0, l => l
  | fuel + 1, c :: rest =>
      if !pat.isEmpty && List.isPrefixOf pat (c :: rest) then
        rep ++ replaceLF pat rep fuel ((c :: rest).drop pat.length)
      else
        c :: replaceLF pat rep fuel rest

def replaceL [BEq α] (pat rep : List α) (l : List α) : List α :=
  replaceLF pat rep l.length l

/-- Python `s.replace(old, new)`. -/
def replace (s pat rep : String) : String := ⟨replaceL pat.data rep.data s.data⟩

/-- Python `s.split(sep)[0]` used as "text before the first `sep`". -/
def takeBefore (sep : Char) (s : String) : String := ⟨s.data.takeWhile (· ≠ sep)⟩

end PyStr

/-! ## SHA-256

Executable SHA-256 over byte lists (`List Nat`, each element `< 256`),
with 32-bit words as `Nat` reduced mod `2^32`, and a hex rendering. -/

namespace SHA256

def M32 : Nat := 4294967296

def rotr (n x : Nat) : Nat := ((x >>> n) ||| (x <<< (32 - n))) % M32

def bsig0 (x : Nat) : Nat := (rotr 2 x) ^^^ (rotr 13 x) ^^^ (rotr 22 x)
def bsig1 (x : Nat) : Nat := (rotr 6 x) ^^^ (rotr 11 x) ^^^ (rotr 25 x)
def ssig0 (x : Nat) : Nat := (rotr 7 x) ^^^ (rotr 18 x) ^^^ (x >>> 3)
def ssig1 (x : Nat) : Nat := (rotr 17 x) ^^^ (rotr 19 x) ^^^ (x >>> 10)

def ch (x y z : Nat) : Nat := (x &&& y) ^^^ ((x ^^^ (M32 - 1)) &&& z)
def maj (x y z : Nat) : Nat := (x &&& y) ^^^ (x &&& z) ^^^ (y &&& z)

def K : List Nat :=
  [1116352408, 1899447441, 3049323471, 3921009573, 961987163,
   1508970993, 2453635748, 2870763221, 3624381080, 310598401,
   607225278, 1426881987, 1925078388, 2162078206, 2614888103,
   3248222580, 3835390401, 4022224774, 264347078, 604807628,
   770255983, 1249150122, 1555081692, 1996064986, 2554220882,
   2821834349, 2952996808, 3210313671, 3336571891, 3584528711,
   113926993, 338241895, 666307205, 773529912, 1294757372,
   1396182291, 1695183700, 1986661051, 2177026350, 2456956037,
   2730485921, 2820302411, 3259730800, 3345764771, 3516065817,
   3600352804, 4094571909, 275423344, 430227734, 506948616,
   659060556, 883997877, 958139571, 1322822218, 1537002063,
   1747873779, 1955562222, 2024104815, 2227730452, 2361852424,
   2428436474, 2756734187, 3204031479, 3329325298]

def H0 : List Nat :=
  [1779033703, 3144134277, 1013904242, 2773480762,
   1359893119, 2600822924, 528734635, 1541459225]

/-- Append the `0x80` byte, zero padding and the 64-bit big-endian bit
length, so the result's length is a multiple of 64. -/
def padMessage (msg : List Nat) : List Nat :=
  let bitLen := msg.length * 8
  let padZeros := (119 - msg.length % 64) % 64
  msg ++ [0x80] ++ List.replicate padZeros 0 ++
    (List.range 8).map (fun i => (bitLen >>> (8 * (7 - i))) % 256)

/-- Big-endian 32-bit words from bytes. -/
def bytesToWords : List Nat → List Nat
  | b0 :: b1 :: b2 :: b3 :: rest =>
      (((b0 * 256 + b1) * 256 + b2) * 256 + b3) :: bytesToWords rest
  | _ => []

/-- Extend the 16-word message schedule by `n` further words. -/
def extendSchedule : Nat → List Nat → List Nat
  | 0, w => w
  | n + 1, w =>
      let t := (ssig1 (w.getD (w.length - 2) 0) + w.getD (w.length - 7) 0 +
                ssig0 (w.getD (w.length - 15) 0) + w.getD (w.length - 16) 0) % M32
      extendSchedule n (w ++ [t])

/-- One round of the compression function; `kw` is `K[i] + W[i] mod 2^32`. -/
def compressWord (s : List Nat) (kw : Nat) : List Nat :=
  match s with
  | [a, b, c, d, e, f, g, h] =>
      let t1 := (h + bsig1 e + ch e f g + kw) % M32
      let t2 := (bsig0 a + maj a b c) % M32
      [(t1 + t2) % M32, a, b, c, (d + t1) % M32, e, f, g]
  | _ => s

def processBlock (h : List Nat) (block : List Nat) : List Nat :=
  let w := extendSchedule 48 (bytesToWords block)
  let kws := List.zipWith (fun k wi => (k + wi) % M32) K w
  let s := kws.foldl compressWord h
  List.zipWith (fun x y => (x + y) % M32) h s

def blocks (l : List Nat) : List (List Nat) :=
  (List.range (l.length / 64)).map (fun i => (l.drop (64 * i)).take 64)

def sha256Words (msg : List Nat) : List Nat :=
  (blocks (padMessage msg)).foldl processBlock H0

def hexDigit (n : Nat) : Char :=
  if n < 10 then Char.ofNat (48 + n) else Char.ofNat (87 + n)

def wordToHex (w : Nat) : List Char :=
  (List.range 8).map (fun i => hexDigit ((w >>> (4 * (7 - i))) % 16))

/-- The SHA-256 digest of a byte list, as a 64-character lowercase hex
string. -/
def sha256Hex (msg : List Nat) : String :=
  ⟨((sha256Words msg).map wordToHex).flatten⟩

/-- UTF-8 encoding of one code point. -/
def utf8Char (n : Nat) : List Nat :=
  if n < 0x80 then [n]
  else if n < 0x800 then [0xC0 + n / 64, 0x80 + n % 64]
  else if n < 0x10000 then
    [0xE0 + n / 4096, 0x80 + (n / 64) % 64, 0x80 + n % 64]
  else
    [0xF0 + n / 262144, 0x80 + (n / 4096) % 64, 0x80 + (n / 64) % 64, 0x80 + n % 64]

/-- Python `s.encode('utf-8')` as a byte list. -/
def utf8 (s : String) : List Nat := s.data.flatMap (fun c => utf8Char c.toNat)

end SHA256

/-! ## Syntax tree model

A tree-sitter concrete syntax tree node: its node type, the source text it
spans (`source_code[node.start_byte : node.end_byte]`, which tree-sitter
also exposes as `node.text`), and its children. -/

inductive Node where
  | node (ty : String) (tx : String) (children : List Node)

def Node.type : Node → String
  | .node t _ _ => t

def Node.text : Node → String
  | .node _ s _ => s

def Node.children : Node → List Node
  | .node _ _ c => c

/-- `_find_nodes_by_type`: all nodes of the given type in the subtree, in
preorder (the node itself first, then each child's results in order). -/
def findNodesByType (n : Node) (t : String) : List Node :=
  (if n.type == t then [n] else []) ++
    (n.children.attach.map (fun c => findNodesByType c.1 t)).flatten
termination_by sizeOf n
decreasing_by
  cases n with
  | node ty tx ch =>
      have h2 := List.sizeOf_lt_of_mem c.2
      simp only [Node.node.sizeOf_spec]
      simp only [Node.children] at h2
      omega

/-- Python truthiness of an optional string: `None` and `""` are falsy. -/
def optTruthy : Option String → Bool
  | none => false
  | some s => s ≠ ""

/-! ## Hierarchy scanner (`hierarchy_scanner.py`) -/

/-- One value of the hierarchy map: `{"parent": …, "methods": […],
"simple_name": …}`. -/
structure ClassInfo where
  parent : Option String
  methods : List String
  simple_name : String
deriving DecidableEq, Repr

/-- A Python dict as an insertion-ordered association list. -/
abbrev HierarchyMap := List (String × ClassInfo)

/-- Python `d[k] = v`: overwrite in place if the key exists, else append. -/
def dictInsert (m : HierarchyMap) (k : String) (v : ClassInfo) : HierarchyMap :=
  if m.any (fun p => p.1 == k) then
    m.map (fun p => if p.1 == k then (k, v) else p)
  else m ++ [(k, v)]

namespace HierarchyScanner

/-- `_extract_package_name`: text of the first `scoped_identifier` or
`identifier` found inside any `package_declaration` child, else
`"None"`. -/
def extractPackageName (root : Node) : String :=
  match root.children.findSome? (fun child =>
    if child.type == "package_declaration" then
      child.children.findSome? (fun pc =>
        if pc.type == "scoped_identifier" || pc.type == "identifier" then
          some pc.text
        else none)
    else none) with
  | some s => s
  | none => "None"

/-- `_get_class_name`: text of the first `identifier` child. -/
def getClassNameOpt (classNode : Node) : Option String :=
  (classNode.children.find? (fun c => c.type == "identifier")).map Node.text

/-- `_get_parent_class`: text of the first matching type node inside a
`superclass` child, truncated at `<` and stripped. -/
def getParentClass (classNode : Node) : Option String :=
  classNode.children.findSome? (fun child =>
    if child.type == "superclass" then
      child.children.findSome? (fun sc =>
        if sc.type == "type_identifier" || sc.type == "generic_type" ||
            sc.type == "scoped_type_identifier" then
          some (PyStr.strip (PyStr.takeBefore '<' sc.text))
        else none)
    else none)

/-- The inner loop of `_get_public_method_names` over one
`method_declaration` node, as the source writes it: a fold that latches
`is_public` when any `modifiers` child contains `public` and keeps the
text of the last `identifier` child. -/
def pubNameStep (st : Bool × Option String) (c : Node) : Bool × Option String :=
  if c.type == "modifiers" then
    (if PyStr.strContains c.text "public" then true else st.1, st.2)
  else if c.type == "identifier" then (st.1, some c.text)
  else st

def declPublicName (decl : Node) : Option String :=
  let st := decl.children.foldl pubNameStep (false, none)
  if st.1 && optTruthy st.2 then st.2 else none

/-- `_get_public_method_names`: names of public `method_declaration`
children of the class body, in declaration order. -/
def getPublicMethodNames (classNode : Node) : List String :=
  match classNode.children.find? (fun c => c.type == "class_body") with
  | none => []
  | some body =>
      body.children.filterMap (fun c =>
        if c.type == "method_declaration" then declPublicName c else none)

/-- `_extract_class_info`: the per-file dictionary from fully-qualified
class name to `ClassInfo`, in declaration order.  A class whose name is
missing or empty is skipped (`if not class_name: continue`). -/
def extractClassInfo (root : Node) : List (String × ClassInfo) :=
  let packageName := extractPackageName root
  (findNodesByType root "class_declaration").filterMap (fun cn =>
    match getClassNameOpt cn with
    | none => none
    | some className =>
        if className == "" then none
        else
          let fq := if packageName ≠ "" && packageName ≠ "None" then
                      packageName ++ "." ++ className
                    else className
          some (fq, ⟨getParentClass cn, getPublicMethodNames cn, className⟩))

/-- A source file as the scanner sees it: parsing either yields a root
node or raises (`.error`), which `build_project_map` catches and skips. -/
abbrev ScanFile := Except Unit Node

/-- `build_project_map`, with the filesystem made explicit: `none` for a
missing root path (`FileNotFoundError`), otherwise the list of discovered
`.java` files.  Returns the hierarchy map together with the list of file
writes the call performs; the final `json.dump` to `output_path` happens
inside this same call.  Path resolution of `output_file` against the root
is abstracted into the given `outputPath`. -/
def scanFileStep (acc : HierarchyMap) (f : ScanFile) : HierarchyMap :=
  match f with
  | .error _ => acc
  | .ok node =>
      let classInfo := extractClassInfo node
      if classInfo.isEmpty then acc
      else classInfo.foldl (fun a p => dictInsert a p.1 p.2) acc

def buildProjectMap (root : Option (List ScanFile)) (outputPath : String) :
    Except String (HierarchyMap × List (String × HierarchyMap)) :=
  match root with
  | none => .error "Root path not found"
  | some files =>
      let hierarchyMap := files.foldl scanFileStep []
      .ok (hierarchyMap, [(outputPath, hierarchyMap)])

end HierarchyScanner

/-! ## Structural parser (`java_parser.py`) -/

/-- The per-method record `parse_file` builds (before `id` is added). -/
structure MethodInfo where
  method_name : String
  method_signature : String
  method_body : String
  class_context : String
  dependency_types : List String
deriving DecidableEq, Repr

/-- A `MethodInfo` with the `id` key added. -/
structure Chunk where
  id : String
  info : MethodInfo
deriving DecidableEq, Repr

namespace JavaCodeParser

/-- `_generate_method_id`: SHA-256 hex digest of the UTF-8 bytes of
`class_context + "::" + method_signature`. -/
def generateMethodId (classContext methodSignature : String) : String :=
  SHA256.sha256Hex (SHA256.utf8 (classContext ++ "::" ++ methodSignature))

/-- `_extract_package_name` (parser variant): like the scanner's, but with
a fallback that strips `package`/`;` from the first `package_declaration`
child's text. -/
def extractPackageName (root : Node) : String :=
  match root.children.find? (fun c => c.type == "package_declaration") with
  | none => "None"
  | some child =>
      match child.children.findSome? (fun pc =>
        if pc.type == "scoped_identifier" || pc.type == "identifier" then
          some pc.text
        else none) with
      | some s => s
      | none =>
          PyStr.strip (PyStr.replace (PyStr.replace child.text "package" "") ";" "")

/-- `_get_class_name`: text of the first `identifier` child, else
`"UnknownClass"`. -/
def getClassName (classNode : Node) : String :=
  (HierarchyScanner.getClassNameOpt classNode).getD "UnknownClass"

/-- `_extract_fields`: each `field_declaration` child of the class body,
stripped and whitespace-collapsed (`' '.join(text.split())`). -/
def extractFields (classNode : Node) : List String :=
  match classNode.children.find? (fun c => c.type == "class_body") with
  | none => []
  | some body =>
      body.children.filterMap (fun c =>
        if c.type == "field_declaration" then
          some (PyStr.joinSep " "
            ((PyStr.splitWsL (PyStr.stripL c.text.data)).map (fun l => ⟨l⟩)))
        else none)

/-- `_get_parent_class` — identical to the scanner's. -/
def getParentClass (classNode : Node) : Option String :=
  HierarchyScanner.getParentClass classNode

/-- `_is_public_method`: `public` occurs in the text of the first
`modifiers` child; `False` when there is no `modifiers` child. -/
def isPublicMethod (methodNode : Node) : Bool :=
  match methodNode.children.find? (fun c => c.type == "modifiers") with
  | some c => PyStr.strContains c.text "public"
  | none => false

/-- First-tier/second-tier parent lookup of `_get_inherited_methods`:
exact key, else the first entry whose `simple_name` equals the parent or
whose key ends in `"." + parent`. -/
def lookupParentInfo (hmap : HierarchyMap) (parentClass : String) : Option ClassInfo :=
  match hmap.find? (fun p => p.1 == parentClass) with
  | some p => some p.2
  | none =>
      hmap.findSome? (fun p =>
        if p.2.simple_name == parentClass ||
            PyStr.endsWith p.1 ("." ++ parentClass) then
          some p.2
        else none)

/-- `_get_inherited_methods`, fuel-indexed: the parent's `methods`
followed by the recursion on the parent's own recorded parent.  The
source recursion is unguarded (the spec assumes the `extends` graph is
acyclic); for an acyclic map each step strictly descends, so
`hmap.length + 1` fuel (see `getInheritedMethods`) reproduces it. -/
def getInheritedMethodsF (hmap : HierarchyMap) : Nat → String → List String
  | 0, _ => []
  | fuel + 1, parentClass =>
      if hmap.isEmpty then []
      else
        match lookupParentInfo hmap parentClass with
        | none => []
        | some info =>
            info.methods ++
              (match info.parent with
               | some p => if p == "" then [] else getInheritedMethodsF hmap fuel p
               | none => [])

/-- `_get_inherited_methods`. -/
def getInheritedMethods (hmap : HierarchyMap) (parentClass : String) : List String :=
  getInheritedMethodsF hmap (hmap.length + 1) parentClass

/-- `_format_class_context`: package, class, fields, then (when a parent
is present) the `Extends` clause and (when any inherited methods were
resolved) the `Inherited Methods` clause. -/
def formatClassContext (hmap : HierarchyMap) (packageName className : String)
    (fields : List String) (parentClass : Option String) : String :=
  let packageStr := if packageName ≠ "" then "Package: " ++ packageName
                    else "Package: None"
  let context :=
    if !fields.isEmpty then
      packageStr ++ ", Class: " ++ className ++ ", Fields: " ++
        PyStr.joinSep "; " fields
    else
      packageStr ++ ", Class: " ++ className ++ ", Fields: None"
  match parentClass with
  | none => context
  | some p =>
      if p == "" then context
      else
        let context := context ++ ", Extends: " ++ p
        let inheritedMethods := getInheritedMethods hmap p
        if !inheritedMethods.isEmpty then
          context ++ ", Inherited Methods: [" ++
            PyStr.joinSep ", " inheritedMethods ++ "]"
        else context

/-- The node types recognised as a parameter's type in
`_extract_parameters_with_types`. -/
def paramTypeNodeTypes : List String :=
  ["type_identifier", "integral_type", "floating_point_type",
   "boolean_type", "generic_type", "array_type",
   "scoped_type_identifier", "void_type"]

/-- Generic-argument and array-suffix stripping applied to a raw
parameter type: `param_type.split('<')[0].strip()` then
`.replace('[]', '').strip()`. -/
def cleanType (t : String) : String :=
  PyStr.strip (PyStr.replace (PyStr.strip (PyStr.takeBefore '<' t)) "[]" "")

/-- The inner loop of `_extract_parameters_with_types` over one
`formal_parameter` node: the stripped text of the last type node and the
text of the last `identifier` child, with reassignment semantics. -/
def paramTypeAndName (param : Node) : Option String × Option String :=
  param.children.foldl (fun (st : Option String × Option String) c =>
    if paramTypeNodeTypes.contains c.type then
      (some (PyStr.strip c.text), st.2)
    else if c.type == "identifier" then (st.1, some c.text)
    else st) (none, none)

/-- `_extract_parameters_with_types`: `(formatted_parameters,
parameter_types)`, folding over `formal_parameter` children exactly as
the source's append logic does (Python truthiness on both strings). -/
def paramStep (acc : List String × List String) (child : Node) :
    List String × List String :=
  if child.type == "formal_parameter" then
    let tn := paramTypeAndName child
    let types :=
      if optTruthy tn.1 then acc.2 ++ [cleanType (tn.1.getD "")] else acc.2
    let params :=
      if optTruthy tn.1 && optTruthy tn.2 then
        acc.1 ++ [tn.1.getD "" ++ " " ++ tn.2.getD ""]
      else if optTruthy tn.1 then acc.1 ++ [tn.1.getD ""]
      else acc.1
    (params, types)
  else acc

def extractParamsWithTypes (formalParams : Node) : List String × List String :=
  formalParams.children.foldl paramStep ([], [])

/-- The fixed exclusion set of `_filter_complex_types`. -/
def primitivesAndCommon : List String :=
  ["int", "Integer", "long", "Long", "short", "Short",
   "byte", "Byte", "float", "Float", "double", "Double",
   "boolean", "Boolean", "char", "Character",
   "void", "Void",
   "String", "Object",
   "List", "ArrayList", "Set", "HashSet", "Map", "HashMap",
   "Collection", "Iterable", "Iterator",
   "Optional", "Stream"]

/-- `_filter_complex_types`: drop excluded types, then de-duplicate with a
`seen` set while preserving order. -/
def dedupStep (st : List String × List String) (t : String) :
    List String × List String :=
  if st.1.contains t then st else (st.1 ++ [t], st.2 ++ [t])

def filterComplexTypes (parameterTypes : List String) : List String :=
  let complexTypes := parameterTypes.filter
    (fun t => !(primitivesAndCommon.contains t))
  (complexTypes.foldl dedupStep ([], [])).2

/-- `_is_empty_method`: strip, remove one surrounding brace pair, strip
again; empty, or every trimmed line empty or starting with `//`, `/*` or
`*`, means the method is discarded. -/
def isEmptyMethod (methodBody : String) : Bool :=
  let body := PyStr.stripL methodBody.data
  let body :=
    if body.head? == some '{' && body.getLast? == some '}' then
      PyStr.stripL (body.drop 1).dropLast
    else body
  if body.isEmpty then true
  else
    let lines := (PyStr.splitCharL '\n' body).map PyStr.stripL
    let nonCommentLines := lines.filter (fun line =>
      !line.isEmpty && !(List.isPrefixOf "//".data line) &&
        !(List.isPrefixOf "/*".data line) && !(List.isPrefixOf "*".data line))
    nonCommentLines.isEmpty

/-- The node types recognised as a method's return type in
`_extract_method_info`. -/
def returnTypeNodeTypes : List String :=
  ["type_identifier", "void_type", "integral_type", "floating_point_type",
   "boolean_type", "generic_type", "array_type", "scoped_type_identifier"]

/-- The component-collecting loop of `_extract_method_info`: one pass over
the children with last-assignment-wins semantics per category
(modifiers, name, return type, formal parameters, body). -/
structure MethodParts where
  modifiers : List String
  nameOpt : Option String
  retOpt : Option String
  params : List String
  paramTypes : List String
  bodyOpt : Option String
deriving DecidableEq, Repr

def collectMethodParts (methodNode : Node) : MethodParts :=
  methodNode.children.foldl (fun (st : MethodParts) c =>
    if c.type == "modifiers" then
      { st with modifiers := (PyStr.splitWsL c.text.data).map (fun l => ⟨l⟩) }
    else if c.type == "identifier" then { st with nameOpt := some c.text }
    else if returnTypeNodeTypes.contains c.type then
      { st with retOpt := some (PyStr.strip c.text) }
    else if c.type == "formal_parameters" then
      let pp := extractParamsWithTypes c
      { st with params := pp.1, paramTypes := pp.2 }
    else if c.type == "block" || c.type == "constructor_body" then
      { st with bodyOpt := some (PyStr.strip c.text) }
    else st)
    ⟨[], none, none, [], [], none⟩

/-- `_extract_method_info`. -/
def extractMethodInfo (methodNode : Node) (classContext className : String)
    (isConstructor : Bool) : Option MethodInfo :=
  let parts := collectMethodParts methodNode
  if !isConstructor && !optTruthy parts.nameOpt then none
  else
    let methodName := if isConstructor then "<Constructor>"
                      else parts.nameOpt.getD ""
    let methodBody :=
      match parts.bodyOpt with
      | some b => if b == "" then PyStr.strip methodNode.text else b
      | none => PyStr.strip methodNode.text
    let dependencyTypes := filterComplexTypes parts.paramTypes
    let modifiersStr := PyStr.joinSep " " parts.modifiers
    let paramsStr := PyStr.joinSep ", " parts.params
    let signatureParts :=
      (if modifiersStr ≠ "" then [modifiersStr] else []) ++
      (if isConstructor then
        ["<Constructor>", className ++ "(" ++ paramsStr ++ ")"]
      else
        [(match parts.retOpt with
          | some r => if r ≠ "" then r else "void"
          | none => "void"),
         methodName ++ "(" ++ paramsStr ++ ")"])
    some ⟨methodName, PyStr.joinSep " " signatureParts, methodBody,
          classContext, dependencyTypes⟩

/-- The per-declaration body of `parse_file`'s two inner loops: extract
when public, drop empty bodies, then attach the generated id. -/
def methodChunk (classContext className : String) (isConstructor : Bool)
    (m : Node) : Option Chunk :=
  if isPublicMethod m then
    match extractMethodInfo m classContext className isConstructor with
    | some info =>
        if isEmptyMethod info.method_body then none
        else some ⟨generateMethodId classContext info.method_signature, info⟩
    | none => none
  else none

/-- The per-class body of `parse_file`: the class context, then the
public non-empty methods followed by the public non-empty
constructors. -/
def chunksForClass (hmap : HierarchyMap) (packageName : String)
    (classNode : Node) : List Chunk :=
  let className := getClassName classNode
  let fields := extractFields classNode
  let parentClass := getParentClass classNode
  let classContext := formatClassContext hmap packageName className fields parentClass
  (findNodesByType classNode "method_declaration").filterMap
      (methodChunk classContext className false) ++
    (findNodesByType classNode "constructor_declaration").filterMap
      (methodChunk classContext className true)

/-- `parse_file` after the file has been read and parsed: every class
declaration in preorder, each contributing its chunks. -/
def parseTree (hmap : HierarchyMap) (root : Node) : List Chunk :=
  let packageName := extractPackageName root
  ((findNodesByType root "class_declaration").map
    (chunksForClass hmap packageName)).flatten

/-- `parse_file` with the filesystem explicit: a missing file raises
`FileNotFoundError`. -/
def parseFile (hmap : HierarchyMap) (fs : String → Option Node)
    (filePath : String) : Except String (List Chunk) :=
  match fs filePath with
  | none => .error ("File not found: " ++ filePath)
  | some root => .ok (parseTree hmap root)

end JavaCodeParser

/-! ## Vector store (`vector_store.py`) -/

namespace VectorStore

/-- `VectorStore.generate_id`: SHA-256 hex digest of the UTF-8 bytes of
`package + "::" + class_name + "::" + signature`. -/
def generateId (package className signature : String) : String :=
  SHA256.sha256Hex (SHA256.utf8 (package ++ "::" ++ className ++ "::" ++ signature))

end VectorStore

/-! ## Ingestion orchestrator (`main_ingest.py`, Pass 2)

`phase2_ingestion_loop` as a fold over the discovered files.  Parsing may
fail per file (`parse f = .error e`, the caught exception); enrichment and
storage are external collaborators, modelled by the function `enrich` and
by recording each storage write batch.  `flush_buffer` and
`_write_to_db_sequential` catch every exception internally, so the
counters and buffer movements below are exactly those of the source also
in the presence of collaborator failures. -/

structure IngestStats where
  files_processed : Nat
  files_failed : Nat
  chunks_indexed : Nat
  total_files : Nat
deriving DecidableEq, Repr

structure Phase2State (χ ε : Type) where
  buffer : List χ
  accumulated : List ε
  enrichCalls : List (List χ)
  writes : List (List ε)
  errorLog : List String
  stats : IngestStats
deriving Repr

namespace IngestionPipeline

/-- One iteration of the `for file_path in java_files` loop.  `B` is
`batch_size`; the accumulation buffer is written out when it reaches
`batch_size * 5`.  `flush_buffer` returns `[]` without calling the
enricher when its argument is empty, and `_write_to_db_sequential`
returns without writing when its argument is empty. -/
def processFile {φ χ ε : Type} (B : Nat) (parse : φ → Except String (List χ))
    (enrich : List χ → List ε) (st : Phase2State χ ε) (f : φ) :
    Phase2State χ ε :=
  match parse f with
  | .error e =>
      { st with
        errorLog := st.errorLog ++ [e],
        stats := { st.stats with files_failed := st.stats.files_failed + 1 } }
  | .ok chunks =>
      let buffer := st.buffer ++ chunks
      let stats := { st.stats with
                     files_processed := st.stats.files_processed + 1 }
      if B ≤ buffer.length then
        let enriched := if buffer.isEmpty then [] else enrich buffer
        let enrichCalls := if buffer.isEmpty then st.enrichCalls
                           else st.enrichCalls ++ [buffer]
        let acc := st.accumulated ++ enriched
        if B * 5 ≤ acc.length then
          { buffer := [],
            accumulated := [],
            enrichCalls := enrichCalls,
            writes := if acc.isEmpty then st.writes else st.writes ++ [acc],
            errorLog := st.errorLog,
            stats := { stats with
                       chunks_indexed := stats.chunks_indexed + acc.length } }
        else
          { st with buffer := [], accumulated := acc,
                    enrichCalls := enrichCalls, stats := stats }
      else { st with buffer := buffer, stats := stats }

/-- The state at the top of `phase2_ingestion_loop`: empty buffers and
`total_files` set to the length of the discovered file list. -/
def initState {χ ε : Type} (totalFiles : Nat) : Phase2State χ ε :=
  ⟨[], [], [], [], [], ⟨0, 0, 0, totalFiles⟩⟩

/-- The first end-of-iteration flush: the remaining parse buffer goes
through the enricher (`if buffer: enriched = await self.flush_buffer(buffer)`). -/
def drainBufferStep {χ ε : Type} (enrich : List χ → List ε)
    (st : Phase2State χ ε) : Phase2State χ ε :=
  if st.buffer.isEmpty then st
  else
    { st with buffer := [],
              accumulated := st.accumulated ++ enrich st.buffer,
              enrichCalls := st.enrichCalls ++ [st.buffer] }

/-- The second end-of-iteration flush: the remaining accumulation buffer
goes to storage (`if all_enriched_chunks: self._write_to_db_sequential(...)`). -/
def drainAccStep {χ ε : Type} (st : Phase2State χ ε) : Phase2State χ ε :=
  if st.accumulated.isEmpty then st
  else
    { st with accumulated := [],
              writes := st.writes ++ [st.accumulated],
              stats := { st.stats with
                         chunks_indexed :=
                           st.stats.chunks_indexed + st.accumulated.length } }

/-- The two unconditional end-of-iteration flushes. -/
def drain {χ ε : Type} (enrich : List χ → List ε) (st : Phase2State χ ε) :
    Phase2State χ ε :=
  drainAccStep (drainBufferStep enrich st)

/-- `phase2_ingestion_loop`. -/
def phase2 {φ χ ε : Type} (B : Nat) (parse : φ → Except String (List χ))
    (enrich : List χ → List ε) (files : List φ) : Phase2State χ ε :=
  drain enrich (files.foldl (processFile B parse enrich) (initState files.length))

end IngestionPipeline

/-! ## Spec-side characterizations and concrete fixtures -/

namespace HierarchyScanner

/-- Spec-side reading of one declaration: a public method declaration
contributes the (nonempty) name of its last `identifier` child. -/
def declaredPublicName (decl : Node) : Option String :=
  if decl.children.any
      (fun c => c.type == "modifiers" && PyStr.strContains c.text "public") then
    match (decl.children.filter (fun c => c.type == "identifier")).getLast? with
    | some n => if n.text ≠ "" then some n.text else none
    | none => none
  else none

end HierarchyScanner

namespace JavaCodeParser

/-- Spec-side: the body with surrounding whitespace and one surrounding
brace pair removed. -/
def braceStripped (body : String) : List Char :=
  let b := PyStr.stripL body.data
  if b.head? == some '{' && b.getLast? == some '}' then
    PyStr.stripL (b.drop 1).dropLast
  else b

/-- Spec-side: the trimmed lines of the brace-stripped body that are
non-empty and do not start with a comment marker (`//`, `/*` or `*`). -/
def nonCommentLines (body : String) : List (List Char) :=
  ((PyStr.splitCharL '\n' (braceStripped body)).map PyStr.stripL).filter
    (fun line =>
      !line.isEmpty && !(List.isPrefixOf "//".data line) &&
        !(List.isPrefixOf "/*".data line) && !(List.isPrefixOf "*".data line))

/-- Spec-side: the raw (stripped, pre-cleaning) type of each
`formal_parameter` child that has a nonempty type. -/
def rawParamTypes (formalParams : Node) : List String :=
  formalParams.children.filterMap (fun c =>
    if c.type == "formal_parameter" then
      match (paramTypeAndName c).1 with
      | some t => if t ≠ "" then some t else none
      | none => none
    else none)

end JavaCodeParser

/-- Spec-side de-duplication keeping the first occurrence of each
element. -/
def dedupFirstSeen : List String → List String
  | [] => []
  | a :: rest => a :: dedupFirstSeen (rest.filter (fun x => !(x == a)))
termination_by l => l.length
decreasing_by
  simp only [List.length_cons]
  exact Nat.lt_succ_of_le (List.length_filter_le _ _)

/-- A class declaring two public overloads of `foo`. -/
def overloadedClass : Node :=
  .node "class_declaration" "class Calc { ... }" [
    .node "identifier" "Calc" [],
    .node "class_body" "{ ... }" [
      .node "method_declaration" "public int foo(int x) { return x; }" [
        .node "modifiers" "public" [],
        .node "integral_type" "int" [],
        .node "identifier" "foo" []],
      .node "method_declaration" "public int foo(int x, int y) { return x + y; }" [
        .node "modifiers" "public" [],
        .node "integral_type" "int" [],
        .node "identifier" "foo" []]]]

/-- A hierarchy map in which `A` resolves but records no public methods. -/
def emptyParentMap : HierarchyMap := [("A", ⟨none, [], "A"⟩)]

/-- The spec's `Dog extends Animal` hierarchy map. -/
def animalMap : HierarchyMap :=
  [("Animal", ⟨none, ["eat", "sleep", "getName", "makeSound"], "Animal"⟩)]

/-- A public method with body `{ return 1; }`. -/
def getOneMethod : Node :=
  .node "method_declaration" "public int getOne() { return 1; }" [
    .node "modifiers" "public" [],
    .node "integral_type" "int" [],
    .node "identifier" "getOne" [],
    .node "formal_parameters" "()" [],
    .node "block" "{ return 1; }" []]

/-- A public method with empty body `{ }`. -/
def emptyBodyMethod : Node :=
  .node "method_declaration" "public void stub() { }" [
    .node "modifiers" "public" [],
    .node "void_type" "void" [],
    .node "identifier" "stub" [],
    .node "formal_parameters" "()" [],
    .node "block" "{ }" []]

/-- A public method whose body holds only a comment line. -/
def commentBodyMethod : Node :=
  .node "method_declaration" "public void noted() \x7b // comment\n \x7d" [
    .node "modifiers" "public" [],
    .node "void_type" "void" [],
    .node "identifier" "noted" [],
    .node "formal_parameters" "()" [],
    .node "block" "\x7b // comment\n \x7d" []]

/-- The formal parameters `(Transaction t1, Transaction t2)`. -/
def transactionParams : Node :=
  .node "formal_parameters" "(Transaction t1, Transaction t2)" [
    .node "formal_parameter" "Transaction t1" [
      .node "type_identifier" "Transaction" [],
      .node "identifier" "t1" []],
    .node "formal_parameter" "Transaction t2" [
      .node "type_identifier" "Transaction" [],
      .node "identifier" "t2" []]]

/-- The formal parameters `(int x, String s)`. -/
def intStringParams : Node :=
  .node "formal_parameters" "(int x, String s)" [
    .node "formal_parameter" "int x" [
      .node "integral_type" "int" [],
      .node "identifier" "x" []],
    .node "formal_parameter" "String s" [
      .node "type_identifier" "String" [],
      .node "identifier" "s" []]]

/-! ## Theorems -/

/-- The recursion equation of `_find_nodes_by_type` as the source writes
it, with the `attach` bookkeeping removed; used to evaluate concrete
trees. -/
theorem findNodesByType_eq (n : Node) (t : String) :
    findNodesByType n t =
      (if n.type == t then [n] else []) ++
        (n.children.map (fun c => findNodesByType c t)).flatten := by
  rw [findNodesByType]
  congr 1
  apply congrArg
  exact List.attach_map_coe n.children (fun c => findNodesByType c t)

/-- Sanity: SHA-256 of the empty input matches the published test vector. -/
theorem sha256_empty_vector :
    SHA256.sha256Hex [] =
      "e3b0c44298fc1c149afbf4c8996fb92427ae41e4649b934ca495991b7852b855" := by
  decide

/-- Sanity: SHA-256 of `"abc"` matches the published test vector. -/
theorem sha256_abc_vector :
    SHA256.sha256Hex (SHA256.utf8 "abc") =
      "ba7816bf8f01cfea414140de5dae2223b00361a396177a9cb410ff61f20015ad" := by
  decide

/-! ## Digest shape lemmas -/

theorem compressWord_length (s : List Nat) (kw : Nat) :
    (SHA256.compressWord s kw).length = s.length := by
  rcases s with _ | ⟨a, _ | ⟨b, _ | ⟨c, _ | ⟨d, _ | ⟨e, _ | ⟨f, _ | ⟨g, _ | ⟨h, _ | ⟨i, t⟩⟩⟩⟩⟩⟩⟩⟩⟩ <;>
    simp [SHA256.compressWord]

theorem foldl_compressWord_length (l : List Nat) (s : List Nat) :
    (l.foldl SHA256.compressWord s).length = s.length := by
  induction l generalizing s with
  | nil => rfl
  | cons a t ih =>
      simp only [List.foldl_cons]
      rw [ih, compressWord_length]

theorem processBlock_length (h block : List Nat) (hh : h.length = 8) :
    (SHA256.processBlock h block).length = 8 := by
  simp [SHA256.processBlock, List.length_zipWith, foldl_compressWord_length, hh]

theorem foldl_processBlock_length (bs : List (List Nat)) (h : List Nat)
    (hh : h.length = 8) : (bs.foldl SHA256.processBlock h).length = 8 := by
  induction bs generalizing h with
  | nil => simpa using hh
  | cons b t ih =>
      simp only [List.foldl_cons]
      exact ih _ (processBlock_length _ _ hh)

theorem sha256Words_length (msg : List Nat) : (SHA256.sha256Words msg).length = 8 :=
  foldl_processBlock_length _ _ rfl

theorem wordToHex_length (w : Nat) : (SHA256.wordToHex w).length = 8 := by
  simp [SHA256.wordToHex]

/-- The digest is always exactly 64 characters. -/
theorem sha256Hex_length (msg : List Nat) : (SHA256.sha256Hex msg).length = 64 := by
  show (((SHA256.sha256Words msg).map SHA256.wordToHex).flatten).length = 64
  rw [List.length_flatten, List.map_map]
  have h1 : ((SHA256.sha256Words msg).map (List.length ∘ SHA256.wordToHex)) =
      (SHA256.sha256Words msg).map (fun _ => 8) := by
    apply List.map_congr_left
    intro w _
    simp [wordToHex_length]
  rw [h1, List.map_const', List.sum_replicate, sha256Words_length]
  rfl

theorem hexDigit_mem : ∀ n < 16, SHA256.hexDigit n ∈ ("0123456789abcdef").data := by
  decide

/-- Every digest character is a lowercase hex digit. -/
theorem sha256Hex_chars (msg : List Nat) :
    ∀ c ∈ (SHA256.sha256Hex msg).data, c ∈ ("0123456789abcdef").data := by
  intro c hc
  show c ∈ ("0123456789abcdef").data
  have hc' : c ∈ ((SHA256.sha256Words msg).map SHA256.wordToHex).flatten := hc
  rw [List.mem_flatten] at hc'
  obtain ⟨l, hl, hcl⟩ := hc'
  rw [List.mem_map] at hl
  obtain ⟨w, _, rfl⟩ := hl
  rw [SHA256.wordToHex, List.mem_map] at hcl
  obtain ⟨i, _, rfl⟩ := hcl
  exact hexDigit_mem _ (Nat.mod_lt _ (by norm_num))

/-- C1: the chunk id is a pure, deterministic function of
`(classContext, signature)`: it equals the SHA-256 hex digest — 64
lowercase hex characters — of the UTF-8 bytes of
`classContext ++ "::" ++ signature`, so identical inputs yield identical
output; and the storage collaborator's `generate_id` on
`(package, className, signature)` uses the same SHA-256 algorithm and the
same `"::"` joining convention. -/
theorem claim_C1 (cc sig cc' sig' p c s : String)
    (hcc : cc' = cc) (hsig : sig' = sig) :
    JavaCodeParser.generateMethodId cc sig =
        SHA256.sha256Hex (SHA256.utf8 (cc ++ "::" ++ sig)) ∧
    (JavaCodeParser.generateMethodId cc sig).length = 64 ∧
    (∀ ch ∈ (JavaCodeParser.generateMethodId cc sig).data,
        ch ∈ ("0123456789abcdef").data) ∧
    JavaCodeParser.generateMethodId cc' sig' =
        JavaCodeParser.generateMethodId cc sig ∧
    VectorStore.generateId p c s =
        JavaCodeParser.generateMethodId (p ++ "::" ++ c) s := by
  subst hcc hsig
  refine ⟨rfl, sha256Hex_length _, sha256Hex_chars _, rfl, ?_⟩
  unfold VectorStore.generateId JavaCodeParser.generateMethodId
  have hd : (p ++ "::" ++ c ++ "::" ++ s).data =
      ((p ++ "::" ++ c) ++ "::" ++ s).data := by
    simp
  unfold SHA256.utf8
  rw [hd]

/-- Witness for C1 at concrete inputs. -/
theorem claim_C1_witness :
    (JavaCodeParser.generateMethodId "Package: None, Class: A, Fields: None"
        "public void f()").length = 64 ∧
    VectorStore.generateId "com.x" "A" "public void f()" =
      JavaCodeParser.generateMethodId ("com.x" ++ "::" ++ "A") "public void f()" :=
  ⟨(claim_C1 "Package: None, Class: A, Fields: None" "public void f()"
      "Package: None, Class: A, Fields: None" "public void f()"
      "com.x" "A" "public void f()" rfl rfl).2.1,
   (claim_C1 "Package: None, Class: A, Fields: None" "public void f()"
      "Package: None, Class: A, Fields: None" "public void f()"
      "com.x" "A" "public void f()" rfl rfl).2.2.2.2⟩

/-! ## Pass 2 flow conservation -/

namespace IngestionPipeline

variable {φ χ ε : Type}

/-- Each loop iteration conserves parsed chunks: the chunks handed to the
enricher so far plus the pending parse buffer grow by exactly this file's
successfully parsed chunks. -/
theorem processFile_flow (B : Nat) (parse : φ → Except String (List χ))
    (enrich : List χ → List ε) (st : Phase2State χ ε) (f : φ) :
    (processFile B parse enrich st f).enrichCalls.flatten ++
        (processFile B parse enrich st f).buffer =
      st.enrichCalls.flatten ++ st.buffer ++ ((parse f).toOption.getD []) := by
  unfold processFile
  cases hp : parse f with
  | error e => simp [Except.toOption]
  | ok chunks =>
      simp only [Except.toOption, Option.getD_some]
      split_ifs with h1 h2 h3 h4 h5 <;>
        simp_all [List.append_assoc]

/-- Each loop iteration preserves the enrichment-to-storage conservation
invariant: chunks written plus the accumulation buffer equal the
concatenated outputs of the enrichment calls made so far. -/
theorem processFile_inv2 (B : Nat) (parse : φ → Except String (List χ))
    (enrich : List χ → List ε) (st : Phase2State χ ε) (f : φ)
    (h : st.writes.flatten ++ st.accumulated = (st.enrichCalls.map enrich).flatten) :
    (processFile B parse enrich st f).writes.flatten ++
        (processFile B parse enrich st f).accumulated =
      ((processFile B parse enrich st f).enrichCalls.map enrich).flatten := by
  unfold processFile
  cases hp : parse f with
  | error e => simpa using h
  | ok chunks =>
      dsimp only
      split_ifs with h1 h2 h3 h4 h5 <;>
        (try simp_all [List.append_assoc]) <;>
        rw [← List.append_assoc, h]

/-- Each loop iteration keeps every storage write batch at least
`batch_size * 5` chunks long. -/
theorem processFile_writes_big (B : Nat) (parse : φ → Except String (List χ))
    (enrich : List χ → List ε) (st : Phase2State χ ε) (f : φ)
    (h : ∀ w ∈ st.writes, B * 5 ≤ w.length) :
    ∀ w ∈ (processFile B parse enrich st f).writes, B * 5 ≤ w.length := by
  unfold processFile
  cases hp : parse f with
  | error e => simpa using h
  | ok chunks =>
      dsimp only
      split_ifs with h1 h2 h3 h4 h5 <;>
        first
        | simpa using h
        | (intro w hw
           simp only [List.mem_append, List.mem_singleton] at hw
           rcases hw with hw | hw
           · exact h w hw
           · subst hw; assumption)

/-- Each loop iteration increments exactly one of `files_processed`,
`files_failed`, and leaves `total_files` unchanged. -/
theorem processFile_counts (B : Nat) (parse : φ → Except String (List χ))
    (enrich : List χ → List ε) (st : Phase2State χ ε) (f : φ) :
    (processFile B parse enrich st f).stats.files_processed +
        (processFile B parse enrich st f).stats.files_failed =
      st.stats.files_processed + st.stats.files_failed + 1 ∧
    (processFile B parse enrich st f).stats.total_files = st.stats.total_files := by
  unfold processFile
  cases hp : parse f with
  | error e => dsimp only; omega
  | ok chunks =>
      dsimp only
      split_ifs with h1 h2 h3 h4 h5 <;> dsimp only <;> omega

theorem loop_flow (B : Nat) (parse : φ → Except String (List χ))
    (enrich : List χ → List ε) (files : List φ) (st : Phase2State χ ε) :
    (files.foldl (processFile B parse enrich) st).enrichCalls.flatten ++
        (files.foldl (processFile B parse enrich) st).buffer =
      st.enrichCalls.flatten ++ st.buffer ++
        ((files.filterMap (fun f => (parse f).toOption)).flatten) := by
  induction files generalizing st with
  | nil => simp
  | cons f t ih =>
      simp only [List.foldl_cons, List.filterMap_cons]
      rw [ih]
      rw [processFile_flow]
      cases hp : parse f with
      | error e => simp [Except.toOption]
      | ok chunks => simp [Except.toOption, List.append_assoc]

theorem loop_inv2 (B : Nat) (parse : φ → Except String (List χ))
    (enrich : List χ → List ε) (files : List φ) (st : Phase2State χ ε)
    (h : st.writes.flatten ++ st.accumulated = (st.enrichCalls.map enrich).flatten) :
    (files.foldl (processFile B parse enrich) st).writes.flatten ++
        (files.foldl (processFile B parse enrich) st).accumulated =
      ((files.foldl (processFile B parse enrich) st).enrichCalls.map enrich).flatten := by
  induction files generalizing st with
  | nil => simpa using h
  | cons f t ih =>
      simp only [List.foldl_cons]
      exact ih _ (processFile_inv2 _ _ _ _ _ h)

theorem loop_writes_big (B : Nat) (parse : φ → Except String (List χ))
    (enrich : List χ → List ε) (files : List φ) (st : Phase2State χ ε)
    (h : ∀ w ∈ st.writes, B * 5 ≤ w.length) :
    ∀ w ∈ (files.foldl (processFile B parse enrich) st).writes, B * 5 ≤ w.length := by
  induction files generalizing st with
  | nil => simpa using h
  | cons f t ih =>
      simp only [List.foldl_cons]
      exact ih _ (processFile_writes_big _ _ _ _ _ h)

theorem loop_counts (B : Nat) (parse : φ → Except String (List χ))
    (enrich : List χ → List ε) (files : List φ) (st : Phase2State χ ε) :
    (files.foldl (processFile B parse enrich) st).stats.files_processed +
        (files.foldl (processFile B parse enrich) st).stats.files_failed =
      st.stats.files_processed + st.stats.files_failed + files.length ∧
    (files.foldl (processFile B parse enrich) st).stats.total_files =
      st.stats.total_files := by
  induction files generalizing st with
  | nil => simp
  | cons f t ih =>
      simp only [List.foldl_cons, List.length_cons]
      obtain ⟨h1, h2⟩ := ih (processFile B parse enrich st f)
      obtain ⟨g1, g2⟩ := processFile_counts B parse enrich st f
      constructor
      · omega
      · rw [h2, g2]

end IngestionPipeline

namespace IngestionPipeline

variable {φ χ ε : Type}

theorem drain_buffer (enrich : List χ → List ε) (st : Phase2State χ ε) :
    (drain enrich st).buffer = [] ∧ (drain enrich st).accumulated = [] := by
  unfold drain drainAccStep drainBufferStep
  split_ifs <;> simp_all

theorem drain_flow (enrich : List χ → List ε) (st : Phase2State χ ε) :
    (drain enrich st).enrichCalls.flatten = st.enrichCalls.flatten ++ st.buffer := by
  unfold drain drainAccStep drainBufferStep
  split_ifs <;> simp_all

theorem drain_inv2 (enrich : List χ → List ε) (st : Phase2State χ ε)
    (h : st.writes.flatten ++ st.accumulated = (st.enrichCalls.map enrich).flatten) :
    (drain enrich st).writes.flatten =
      ((drain enrich st).enrichCalls.map enrich).flatten := by
  unfold drain drainAccStep drainBufferStep
  split_ifs <;>
    (try simp_all [List.append_assoc]) <;>
    rw [← List.append_assoc, h]

theorem drain_writes (enrich : List χ → List ε) (st : Phase2State χ ε) :
    ∀ w ∈ (drain enrich st).writes.dropLast, w ∈ st.writes := by
  unfold drain drainAccStep drainBufferStep
  split_ifs <;>
    simp_all [List.dropLast_concat] <;>
    intro w hw <;>
    exact List.dropLast_subset _ hw

theorem drain_counts (enrich : List χ → List ε) (st : Phase2State χ ε) :
    (drain enrich st).stats.files_processed = st.stats.files_processed ∧
    (drain enrich st).stats.files_failed = st.stats.files_failed ∧
    (drain enrich st).stats.total_files = st.stats.total_files := by
  unfold drain drainAccStep drainBufferStep
  split_ifs <;> simp_all

end IngestionPipeline

/-- C6: in Pass 2, enriched chunks are written out whenever the
accumulation buffer reaches `batch_size * 5` (every intermediate write
batch has at least that many chunks), and at end of iteration both
buffers are drained unconditionally, so the enrichment calls receive
exactly the successfully parsed chunks in order and the storage writes
receive exactly the enrichment outputs — no parsed or enriched chunk is
dropped or written twice. -/
theorem claim_C6 {φ χ ε : Type} (B : Nat) (parse : φ → Except String (List χ))
    (enrich : List χ → List ε) (files : List φ) :
    (IngestionPipeline.phase2 B parse enrich files).buffer = [] ∧
    (IngestionPipeline.phase2 B parse enrich files).accumulated = [] ∧
    (IngestionPipeline.phase2 B parse enrich files).enrichCalls.flatten =
      (files.filterMap (fun f => (parse f).toOption)).flatten ∧
    (IngestionPipeline.phase2 B parse enrich files).writes.flatten =
      ((IngestionPipeline.phase2 B parse enrich files).enrichCalls.map enrich).flatten ∧
    ∀ w ∈ (IngestionPipeline.phase2 B parse enrich files).writes.dropLast,
      B * 5 ≤ w.length := by
  unfold IngestionPipeline.phase2
  obtain ⟨hb, ha⟩ := IngestionPipeline.drain_buffer enrich
    (files.foldl (IngestionPipeline.processFile B parse enrich)
      (IngestionPipeline.initState files.length))
  refine ⟨hb, ha, ?_, ?_, ?_⟩
  · rw [IngestionPipeline.drain_flow]
    have := IngestionPipeline.loop_flow B parse enrich files
      (IngestionPipeline.initState files.length)
    simpa [IngestionPipeline.initState] using this
  · exact IngestionPipeline.drain_inv2 _ _
      (IngestionPipeline.loop_inv2 B parse enrich files _
        (by simp [IngestionPipeline.initState]))
  · intro w hw
    have hmem := IngestionPipeline.drain_writes enrich _ w hw
    exact IngestionPipeline.loop_writes_big B parse enrich files _
      (by simp [IngestionPipeline.initState]) w hmem

/-- Witness for C6: with `batch_size = 1` and an identity enrichment over
six one-chunk files, one intermediate write of five chunks happens and the
drain writes the remaining chunk; the intermediate batch meets the
`batch_size * 5` bound. -/
theorem claim_C6_witness :
    (IngestionPipeline.phase2 1 (fun n : Nat => Except.ok [n]) (fun l => l)
        [0, 1, 2, 3, 4, 5]).writes = [[0, 1, 2, 3, 4], [5]] ∧
    1 * 5 ≤ ([0, 1, 2, 3, 4] : List Nat).length :=
  ⟨by decide,
   (claim_C6 1 (fun n : Nat => Except.ok [n]) (fun l => l)
      [0, 1, 2, 3, 4, 5]).2.2.2.2 [0, 1, 2, 3, 4] (by decide)⟩

/-- C10: after Pass 2, `files_processed + files_failed = total_files`:
every discovered file increments exactly one of the two counters, and
`total_files` is the length of the discovered file list. -/
theorem claim_C10 {φ χ ε : Type} (B : Nat) (parse : φ → Except String (List χ))
    (enrich : List χ → List ε) (files : List φ) :
    (IngestionPipeline.phase2 B parse enrich files).stats.files_processed +
        (IngestionPipeline.phase2 B parse enrich files).stats.files_failed =
      files.length ∧
    (IngestionPipeline.phase2 B parse enrich files).stats.total_files =
      files.length := by
  unfold IngestionPipeline.phase2
  obtain ⟨d1, d2, d3⟩ := IngestionPipeline.drain_counts enrich
    (files.foldl (IngestionPipeline.processFile B parse enrich)
      (IngestionPipeline.initState files.length))
  obtain ⟨l1, l2⟩ := IngestionPipeline.loop_counts B parse enrich files
    (IngestionPipeline.initState files.length)
  rw [d1, d2, d3, l2]
  simp [IngestionPipeline.initState] at l1 ⊢
  omega

/-! ## Scanner error isolation and the hierarchy write -/

namespace HierarchyScanner

theorem scanFileStep_error (acc : HierarchyMap) (e : Unit) :
    scanFileStep acc (.error e) = acc := rfl

/-- Skipping caught per-file failures: the scan of a file list equals the
scan of its successfully parsed sublist. -/
theorem foldl_scanFileStep_filter (files : List ScanFile) (acc : HierarchyMap) :
    files.foldl scanFileStep acc =
      (files.filter (fun f => f.toOption.isSome)).foldl scanFileStep acc := by
  induction files generalizing acc with
  | nil => rfl
  | cons f t ih =>
      cases f with
      | error e =>
          simp only [List.foldl_cons, List.filter_cons, scanFileStep_error]
          simpa [Except.toOption] using ih acc
      | ok node =>
          simp only [List.foldl_cons, List.filter_cons]
          simpa [Except.toOption] using ih (scanFileStep acc (.ok node))

end HierarchyScanner

/-- C8: a failure while processing a single file is caught and the file
skipped, so the resulting hierarchy map equals the merge over the files
that parsed successfully; a missing root path fails the scan call itself
with a not-found error, before any file is processed. -/
theorem claim_C8 (files : List HierarchyScanner.ScanFile) (out : String) :
    HierarchyScanner.buildProjectMap none out = .error "Root path not found" ∧
    HierarchyScanner.buildProjectMap (some files) out =
      HierarchyScanner.buildProjectMap
        (some (files.filter (fun f => f.toOption.isSome))) out := by
  refine ⟨rfl, ?_⟩
  unfold HierarchyScanner.buildProjectMap
  dsimp only
  rw [HierarchyScanner.foldl_scanFileStep_filter]

/-- C7 is falsified at a concrete input: the scan call on an existing
(empty) root performs a file write — the hierarchy JSON is written inside
`build_project_map` itself, not by a separate persist step. -/
theorem claim_C7_counterexample :
    HierarchyScanner.buildProjectMap (some []) "project_hierarchy.json" =
      .ok ([], [("project_hierarchy.json", [])]) ∧
    ([("project_hierarchy.json", ([] : HierarchyMap))] : List (String × HierarchyMap)) ≠ [] :=
  ⟨rfl, by decide⟩

/-- C7 (amended): a successful scan call performs exactly one storage side
effect — it writes the hierarchy map it just built to the output path as
part of the same call. -/
theorem claim_C7 (files : List HierarchyScanner.ScanFile) (out : String) :
    ∃ m, HierarchyScanner.buildProjectMap (some files) out = .ok (m, [(out, m)]) :=
  ⟨_, rfl⟩

/-! ## Scanner public-method list, characterized -/

theorem getLast?_cons_char {α : Type} (a : α) (l : List α) :
    (a :: l).getLast? = (match l.getLast? with | some x => some x | none => some a) := by
  induction l generalizing a with
  | nil => rfl
  | cons b t ih =>
      have h1 : (a :: b :: t).getLast? = (b :: t).getLast? := by simp [List.getLast?]
      rw [h1, ih b]
      cases t.getLast? <;> rfl

namespace HierarchyScanner

/-- The latch-fold over a declaration's children computes: "some
`modifiers` child contains `public`", and the text of the last
`identifier` child (falling back to the accumulator). -/
theorem foldl_pubNameStep (cs : List Node) (b : Bool) (o : Option String) :
    cs.foldl pubNameStep (b, o) =
      (b || cs.any (fun c => c.type == "modifiers" && PyStr.strContains c.text "public"),
       match (cs.filter (fun c => c.type == "identifier")).getLast? with
       | some n => some n.text
       | none => o) := by
  induction cs generalizing b o with
  | nil => simp
  | cons c t ih =>
      simp only [List.foldl_cons, List.any_cons, List.filter_cons]
      by_cases hm : c.type = "modifiers"
      · have hi : (c.type == "identifier") = false := by simp [hm]
        by_cases hpub : PyStr.strContains c.text "public"
        · simp [pubNameStep, hm, hi, hpub, ih]
        · simp only [pubNameStep, hm] at *
          simp [hi, hpub, ih, Bool.or_assoc]
      · by_cases hi : c.type = "identifier"
        · have hm' : (c.type == "modifiers") = false := by simp [hm]
          simp only [pubNameStep, hm', hi]
          simp only [beq_self_eq_true, if_true, if_false, Bool.false_and,
            Bool.false_or, ih]
          rw [getLast?_cons_char]
          cases (t.filter (fun c => c.type == "identifier")).getLast? <;> simp [hm]
        · have hm' : (c.type == "modifiers") = false := by simp [hm]
          have hi' : (c.type == "identifier") = false := by simp [hi]
          simp [pubNameStep, hm', hi', ih]

theorem declPublicName_eq (decl : Node) :
    declPublicName decl = declaredPublicName decl := by
  unfold declPublicName declaredPublicName
  rw [foldl_pubNameStep]
  cases hl : (decl.children.filter (fun c => c.type == "identifier")).getLast? with
  | none =>
      simp [optTruthy]
  | some n =>
      by_cases hp : decl.children.any
          (fun c => c.type == "modifiers" && PyStr.strContains c.text "public")
      · by_cases hn : n.text = "" <;> simp [optTruthy, hp, hn]
      · simp [optTruthy, hp]

end HierarchyScanner

/-- C3 is falsified at a concrete input: a class with two public
overloads of `foo` yields `["foo", "foo"]` — the scanner records one
entry per declaration and does not de-duplicate overload names. -/
theorem claim_C3_counterexample :
    HierarchyScanner.getPublicMethodNames overloadedClass = ["foo", "foo"] ∧
    ¬ (HierarchyScanner.getPublicMethodNames overloadedClass).Nodup :=
  ⟨by decide, by decide⟩

/-- C3 (amended): `publicMethods` lists, in declaration order, one entry
per `method_declaration` child of the class body whose modifiers contain
`public` and which has a (nonempty) name — so each overload contributes
its own entry and a name may repeat. -/
theorem claim_C3 (classNode body : Node)
    (hb : classNode.children.find? (fun c => c.type == "class_body") = some body) :
    HierarchyScanner.getPublicMethodNames classNode =
      body.children.filterMap (fun c =>
        if c.type == "method_declaration" then
          HierarchyScanner.declaredPublicName c
        else none) := by
  unfold HierarchyScanner.getPublicMethodNames
  rw [hb]
  apply List.filterMap_congr
  intro c _
  by_cases hc : c.type = "method_declaration" <;>
    simp [hc, HierarchyScanner.declPublicName_eq]

/-- Witness for C3 at the concrete overloaded class. -/
theorem claim_C3_witness :
    HierarchyScanner.getPublicMethodNames overloadedClass =
      (overloadedClass.children.getD 1 (.node "" "" [])).children.filterMap
        (fun c =>
          if c.type == "method_declaration" then
            HierarchyScanner.declaredPublicName c
          else none) :=
  claim_C3 overloadedClass (overloadedClass.children.getD 1 (.node "" "" []))
    rfl

/-- C9: a method or constructor declaration with no `modifiers` node at
all (Java default visibility) is treated as non-public by both
components: the parser's public test is `False`, the scanner's
per-declaration contribution to `publicMethods` is empty, and the parser
produces no chunk for it. -/
theorem claim_C9 (m : Node) (ctx cn : String) (ctor : Bool)
    (h : m.children.find? (fun c => c.type == "modifiers") = none) :
    JavaCodeParser.isPublicMethod m = false ∧
    HierarchyScanner.declPublicName m = none ∧
    JavaCodeParser.methodChunk ctx cn ctor m = none := by
  have h' : ∀ c ∈ m.children, ¬ (c.type == "modifiers") = true :=
    fun c hc => by simpa using List.find?_eq_none.mp h c hc
  have hpub : JavaCodeParser.isPublicMethod m = false := by
    unfold JavaCodeParser.isPublicMethod
    rw [h]
  refine ⟨hpub, ?_, ?_⟩
  · rw [HierarchyScanner.declPublicName_eq]
    unfold HierarchyScanner.declaredPublicName
    have hany : m.children.any
        (fun c => c.type == "modifiers" && PyStr.strContains c.text "public") = false := by
      rw [List.any_eq_false]
      intro c hc
      have hc' := h' c hc
      simp only [Bool.and_eq_true, not_and]
      intro hcm
      exact absurd hcm hc'
    simp [hany]
  · unfold JavaCodeParser.methodChunk
    rw [hpub]
    simp

/-- Witness for C9: a package-private helper method node. -/
theorem claim_C9_witness :
    JavaCodeParser.isPublicMethod
        (.node "method_declaration" "int helper() { return 1; }" [
          .node "integral_type" "int" [],
          .node "identifier" "helper" [],
          .node "formal_parameters" "()" [],
          .node "block" "{ return 1; }" []]) = false ∧
    HierarchyScanner.declPublicName
        (.node "method_declaration" "int helper() { return 1; }" [
          .node "integral_type" "int" [],
          .node "identifier" "helper" [],
          .node "formal_parameters" "()" [],
          .node "block" "{ return 1; }" []]) = none ∧
    JavaCodeParser.methodChunk "Package: None, Class: C, Fields: None" "C" false
        (.node "method_declaration" "int helper() { return 1; }" [
          .node "integral_type" "int" [],
          .node "identifier" "helper" [],
          .node "formal_parameters" "()" [],
          .node "block" "{ return 1; }" []]) = none :=
  claim_C9
    (.node "method_declaration" "int helper() { return 1; }" [
      .node "integral_type" "int" [],
      .node "identifier" "helper" [],
      .node "formal_parameters" "()" [],
      .node "block" "{ return 1; }" []])
    "Package: None, Class: C, Fields: None" "C" false rfl

/-- C2 is falsified at a concrete input: class `C extends A` where `A`
resolves in the map (exact key) but records no methods — the context gets
the `Extends` clause yet no `Inherited Methods` clause. -/
theorem claim_C2_counterexample :
    JavaCodeParser.lookupParentInfo emptyParentMap "A" = some ⟨none, [], "A"⟩ ∧
    JavaCodeParser.formatClassContext emptyParentMap "p" "C" [] (some "A") =
      "Package: p, Class: C, Fields: None, Extends: A" ∧
    PyStr.strContains
      (JavaCodeParser.formatClassContext emptyParentMap "p" "C" [] (some "A"))
      "Inherited Methods" = false :=
  ⟨by decide, by decide, by decide⟩

/-- C2 (amended): for a class with a (nonempty) parent name, the context
always carries the `Extends` clause; the `Inherited Methods` clause —
listing the transitively accumulated parent methods in recorded order —
appears exactly when that accumulated list is nonempty.  A parent that
does not resolve in the map accumulates nothing, and a parent that
resolves contributes its `methods` followed by the accumulation over its
own recorded parent. -/
theorem claim_C2 (hmap : HierarchyMap) (pkg cls p : String)
    (fields : List String) (hp : p ≠ "") :
    (JavaCodeParser.getInheritedMethods hmap p ≠ [] →
      JavaCodeParser.formatClassContext hmap pkg cls fields (some p) =
        JavaCodeParser.formatClassContext hmap pkg cls fields none ++
          ", Extends: " ++ p ++ ", Inherited Methods: [" ++
          PyStr.joinSep ", " (JavaCodeParser.getInheritedMethods hmap p) ++ "]") ∧
    (JavaCodeParser.getInheritedMethods hmap p = [] →
      JavaCodeParser.formatClassContext hmap pkg cls fields (some p) =
        JavaCodeParser.formatClassContext hmap pkg cls fields none ++
          ", Extends: " ++ p) ∧
    (JavaCodeParser.lookupParentInfo hmap p = none →
      JavaCodeParser.getInheritedMethods hmap p = []) ∧
    (∀ info, JavaCodeParser.lookupParentInfo hmap p = some info →
      hmap.isEmpty = false →
      JavaCodeParser.getInheritedMethods hmap p =
        info.methods ++
          (match info.parent with
           | some g =>
               if g == "" then []
               else JavaCodeParser.getInheritedMethodsF hmap hmap.length g
           | none => [])) := by
  have hpb : (p == "") = false := by simpa using hp
  refine ⟨?_, ?_, ?_, ?_⟩
  · intro hne
    unfold JavaCodeParser.formatClassContext
    dsimp only
    rw [hpb]
    have : (JavaCodeParser.getInheritedMethods hmap p).isEmpty = false := by
      simpa [List.isEmpty_iff] using hne
    simp only [this, Bool.not_false, if_true, Bool.false_eq_true, if_false]
  · intro hnil
    unfold JavaCodeParser.formatClassContext
    dsimp only
    rw [hpb]
    simp [hnil]
  · intro hnone
    unfold JavaCodeParser.getInheritedMethods JavaCodeParser.getInheritedMethodsF
    rw [hnone]
    split <;> rfl
  · intro info hsome hne
    conv_lhs =>
      unfold JavaCodeParser.getInheritedMethods JavaCodeParser.getInheritedMethodsF
    rw [hne, hsome]
    simp

/-- Witness for C2: `Dog extends Animal` gets the `Extends` clause
followed by the `Inherited Methods` clause listing Animal's methods in
declaration order. -/
theorem claim_C2_witness :
    JavaCodeParser.formatClassContext animalMap "p" "Dog" [] (some "Animal") =
      JavaCodeParser.formatClassContext animalMap "p" "Dog" [] none ++
        ", Extends: " ++ "Animal" ++ ", Inherited Methods: [" ++
        PyStr.joinSep ", "
          (JavaCodeParser.getInheritedMethods animalMap "Animal") ++ "]" :=
  (claim_C2 animalMap "p" "Dog" "Animal" [] (by decide)).1 (by decide)

/-! ## Empty-body filtering -/

namespace JavaCodeParser

/-- `_is_empty_method` holds exactly when zero non-comment lines remain
in the brace-stripped body. -/
theorem isEmptyMethod_iff (body : String) :
    isEmptyMethod body = (nonCommentLines body).isEmpty := by
  unfold isEmptyMethod nonCommentLines braceStripped
  dsimp only
  split_ifs with h1 h2 h3 <;>
    first
    | rfl
    | (rw [List.isEmpty_iff] at h2
       rw [h2]
       rfl)
    | (rw [List.isEmpty_iff] at h3
       rw [h3]
       rfl)

end JavaCodeParser

/-- C4: for a public method or constructor declaration whose info
extraction succeeds, `parse_file` excludes its chunk iff the
brace-stripped body, split into trimmed lines, has zero lines that are
non-empty and do not start with a comment marker; when included, the
chunk is exactly the extracted info with its generated id. -/
theorem claim_C4 (m : Node) (ctx cn : String) (ctor : Bool) (info : MethodInfo)
    (hpub : JavaCodeParser.isPublicMethod m = true)
    (hinfo : JavaCodeParser.extractMethodInfo m ctx cn ctor = some info) :
    (JavaCodeParser.methodChunk ctx cn ctor m = none ↔
      JavaCodeParser.nonCommentLines info.method_body = []) ∧
    (JavaCodeParser.nonCommentLines info.method_body ≠ [] →
      JavaCodeParser.methodChunk ctx cn ctor m =
        some ⟨JavaCodeParser.generateMethodId ctx info.method_signature, info⟩) := by
  unfold JavaCodeParser.methodChunk
  rw [hpub, hinfo]
  simp only [if_true]
  rw [JavaCodeParser.isEmptyMethod_iff]
  by_cases h : JavaCodeParser.nonCommentLines info.method_body = []
  · rw [h]
    simp
  · have : (JavaCodeParser.nonCommentLines info.method_body).isEmpty = false := by
      simpa [List.isEmpty_iff] using h
    rw [this]
    simp [h]

/-- Witness for C4: `{ return 1; }` is included while `{ }` and a
comment-only body are excluded. -/
theorem claim_C4_witness :
    JavaCodeParser.methodChunk "ctx" "C" false getOneMethod ≠ none ∧
    JavaCodeParser.methodChunk "ctx" "C" false emptyBodyMethod = none ∧
    JavaCodeParser.methodChunk "ctx" "C" false commentBodyMethod = none :=
  ⟨fun h => absurd
      ((claim_C4 getOneMethod "ctx" "C" false
          ⟨"getOne", "public int getOne()", "{ return 1; }", "ctx", []⟩
          rfl rfl).1.mp h)
      (by decide),
   (claim_C4 emptyBodyMethod "ctx" "C" false
      ⟨"stub", "public void stub()", "{ }", "ctx", []⟩ rfl rfl).1.mpr (by decide),
   (claim_C4 commentBodyMethod "ctx" "C" false
      ⟨"noted", "public void noted()", "\x7b // comment\n \x7d", "ctx", []⟩
      rfl rfl).1.mpr (by decide)⟩

/-! ## Dependency types, characterized -/

namespace JavaCodeParser

theorem foldl_dedupStep (l : List String) (seen out : List String) :
    (l.foldl dedupStep (seen, out)).2 =
      out ++ dedupFirstSeen (l.filter (fun t => !(seen.contains t))) := by
  induction l generalizing seen out with
  | nil => simp [dedupFirstSeen]
  | cons a rest ih =>
      simp only [List.foldl_cons, List.filter_cons, dedupStep]
      by_cases ha : seen.contains a
      · have ham : a ∈ seen := by simpa using ha
        rw [if_pos ha, ih]
        simp [ha, ham]
      · have ham : a ∉ seen := by simpa using ha
        rw [if_neg ha, ih]
        have hnc : (!seen.contains a) = true := by simp [ham]
        rw [hnc, if_pos rfl, dedupFirstSeen, List.filter_filter]
        have hfil :
            rest.filter (fun t => !((seen ++ [a]).contains t)) =
              rest.filter (fun x => (!x == a) && !seen.contains x) := by
          apply List.filter_congr
          intro x _
          by_cases hx : x = a
          · subst hx
            simp
          · have h1 : (x == a) = false := by simpa using hx
            simp [hx, h1]
        rw [hfil]
        simp [List.append_assoc, ham]

theorem foldl_paramStep_types (cs : List Node) (ps ts : List String) :
    (cs.foldl paramStep (ps, ts)).2 =
      ts ++ (cs.filterMap (fun c =>
        if c.type == "formal_parameter" then
          match (paramTypeAndName c).1 with
          | some t => if t ≠ "" then some t else none
          | none => none
        else none)).map cleanType := by
  induction cs generalizing ps ts with
  | nil => simp
  | cons c rest ih =>
      simp only [List.foldl_cons, List.filterMap_cons, paramStep]
      by_cases hc : c.type = "formal_parameter"
      · have hcb : (c.type == "formal_parameter") = true := by simp [hc]
        rw [hcb]
        cases htn : (paramTypeAndName c).1 with
        | none =>
            simp only [if_true, htn, optTruthy]
            rw [ih]
            simp
        | some t =>
            by_cases ht : t = ""
            · subst ht
              simp only [if_true, htn, optTruthy]
              rw [ih]
              simp
            · simp only [if_true, htn, optTruthy, ht]
              rw [ih]
              simp [ht, List.append_assoc, Option.getD]
      · have hcb : (c.type == "formal_parameter") = false := by simp [hc]
        rw [hcb]
        simp only [Bool.false_eq_true, if_false]
        rw [ih]

end JavaCodeParser

/-- C5: `dependency_types` equals the parameter types — generic
arguments and array suffixes stripped — with every member of the fixed
exclusion set removed and de-duplicated preserving first-seen order; in
particular `(Transaction t1, Transaction t2)` yields `["Transaction"]`
and `(int x, String s)` yields `[]`. -/
theorem claim_C5 (fp : Node) (ts : List String) :
    JavaCodeParser.filterComplexTypes ts =
      dedupFirstSeen
        (ts.filter (fun t => !(JavaCodeParser.primitivesAndCommon.contains t))) ∧
    (JavaCodeParser.extractParamsWithTypes fp).2 =
      (JavaCodeParser.rawParamTypes fp).map JavaCodeParser.cleanType ∧
    JavaCodeParser.filterComplexTypes
        (JavaCodeParser.extractParamsWithTypes transactionParams).2 =
      ["Transaction"] ∧
    JavaCodeParser.filterComplexTypes
        (JavaCodeParser.extractParamsWithTypes intStringParams).2 = [] := by
  refine ⟨?_, ?_, by decide, by decide⟩
  · unfold JavaCodeParser.filterComplexTypes
    dsimp only
    rw [JavaCodeParser.foldl_dedupStep]
    simp
  · unfold JavaCodeParser.extractParamsWithTypes JavaCodeParser.rawParamTypes
    rw [JavaCodeParser.foldl_paramStep_types]
    simp
